import Mathlib

/-
Shallow embedding of the KoHash Zobrist hashing module
(src/zobrist-hash-class.js of goopletdev/zobrist).

Machine model:
* JavaScript `Math.floor(Math.random() * Number.MAX_SAFE_INTEGER)` draws are
  modelled by an explicit stream of natural numbers consumed in order; the
  `do { ... } while` retry loop consumes draws until one is outside the
  exclusion set, returning `none` when the stream is exhausted.
* The `Set` of numbers used during construction and the registry `Set` are
  modelled as lists, with membership as list membership (insertion order is
  irrelevant to every operation performed on them).
* JavaScript `^` on numbers coerces both operands with ToInt32 (reduction
  modulo 2^32, reinterpreted as a signed 32-bit integer) and returns a signed
  32-bit integer; `jsXor` reproduces this exactly.
* `state.reduce((hash,val,i) => hash ^ this.nums[i][val])` is called without
  an initial accumulator, so the accumulator starts as `state[0]` (the raw
  board value) and the callback runs from index 1; on an empty array `reduce`
  throws, modelled as `none`.  Reading `this.nums[i]` for `i` out of range
  yields `undefined`, and `undefined[val]` throws (`none`); reading an
  in-range row at an out-of-range value yields `undefined`, which ToInt32
  coerces to 0, modelled by `List.getD _ _ 0`.
-/

/-- Residue of an integer modulo 2^32, as a natural number: the unsigned
32-bit pattern that JavaScript ToInt32 reduces the integer to. -/
def u32 (a : Int) : Nat := (a % 4294967296).toNat

/-- JavaScript `a ^ b` on numbers: coerce both operands with ToInt32, XOR the
32-bit patterns, and reinterpret the result as a signed 32-bit integer. -/
def jsXor (a b : Int) : Int :=
  if u32 a ^^^ u32 b < 2147483648 then ((u32 a ^^^ u32 b : Nat) : Int)
  else ((u32 a ^^^ u32 b : Nat) : Int) - 4294967296

/-- The body of the `do { num = Math.floor(Math.random() * MAX_SAFE_INTEGER) }
while (numbers.has(num))` loop in `initNumbers`: consume draws from the
stream until one is not in the exclusion set, returning it together with the
rest of the stream. -/
def genKey (numbers : List Nat) : List Nat → Option (Nat × List Nat)
  | [] => none
  | d :: rest => if d ∈ numbers then genKey numbers rest else some (d, rest)

/-- The `for (let val=1; val <= quantity; val++)` loop of `initNumbers`:
generate `quantity` fresh keys, adding each to the exclusion set as it is
accepted.  Returns the generated keys in order, the grown exclusion set, and
the remaining stream. -/
def genKeys : List Nat → Nat → List Nat → Option (List Nat × List Nat × List Nat)
  | numbers, 0, stream => some ([], numbers, stream)
  | numbers, q + 1, stream =>
    match genKey numbers stream with
    | none => none
    | some (k, s1) =>
      match genKeys (k :: numbers) q s1 with
      | none => none
      | some (ks, ns, s2) => some (k :: ks, ns, s2)

/-- The source's `initNumbers(numbers, quantity)`: an array starting with the
literal 0, followed by `quantity` unique pseudo-random numbers, each checked
against (and added to) the shared exclusion set.  The literal 0 at index 0 is
never added to the set. -/
def initNumbers (numbers : List Nat) (quantity : Nat) (stream : List Nat) :
    Option (List Nat × List Nat × List Nat) :=
  match genKeys numbers quantity stream with
  | none => none
  | some (ks, ns, s) => some (0 :: ks, ns, s)

/-- The `for (let vertex=0; vertex < size; vertex++)` loop of the `KoHash`
constructor: one row per vertex, all rows drawing from the same exclusion
set. -/
def buildRows : List Nat → Nat → Nat → List Nat →
    Option (List (List Nat) × List Nat × List Nat)
  | numbers, 0, _, stream => some ([], numbers, stream)
  | numbers, size + 1, values, stream =>
    match initNumbers numbers values stream with
    | none => none
    | some (row, ns, s1) =>
      match buildRows ns size values s1 with
      | none => none
      | some (rows, ns2, s2) => some (row :: rows, ns2, s2)

/-- The state of a `KoHash` instance: `nums` is the per-vertex key matrix,
`toPlay` the optional per-player key row (absent when `situational` was
falsey), `keys` the registry of fingerprints added so far. -/
structure KoHash where
  nums : List (List Nat)
  toPlay : Option (List Nat)
  keys : List Int
deriving DecidableEq

/-- The `KoHash` constructor: build `size` rows of `values` keys each from a
shared exclusion set, then, if `situational` is truthy (nonzero), a to-play
row of `situational` keys from the same set; the registry starts empty.  No
argument validation is performed, mirroring the source. -/
def KoHash.construct (size values situational : Nat) (stream : List Nat) :
    Option KoHash :=
  match buildRows [] size values stream with
  | none => none
  | some (rows, numbers, s1) =>
    if situational = 0 then some ⟨rows, none, []⟩
    else
      match initNumbers numbers situational s1 with
      | none => none
      | some (tp, _, _) => some ⟨rows, some tp, []⟩

/-- The callback iterations of `state.reduce((hash,val,i) => hash ^
this.nums[i][val])` from index `i` on, with accumulator `acc`: `none` models
the TypeError thrown when `this.nums[i]` is `undefined`. -/
def foldFrom (nums : List (List Nat)) : Int → Nat → List Nat → Option Int
  | acc, _, [] => some acc
  | acc, i, v :: rest =>
    match nums[i]? with
    | none => none
    | some row => foldFrom nums (jsXor acc ((row.getD v 0 : Nat) : Int)) (i + 1) rest

/-- The full `state.reduce((hash,val,i) => hash ^ this.nums[i][val])` call:
without an initial accumulator, `reduce` throws on an empty array (`none`),
and otherwise starts from `state[0]` itself with the callback running from
index 1. -/
def reduceFold (nums : List (List Nat)) : List Nat → Option Int
  | [] => none
  | s0 :: rest => foldFrom nums ((s0 : Nat) : Int) 1 rest

/-- The source's `hash(state, toPlay)`: the unseeded reduce over the state,
then, when `this.toPlay` is present, a further `^ this.toPlay[toPlay]`
(an out-of-range to-play index reads `undefined`, which coerces to 0). -/
def KoHash.hash (t : KoHash) (state : List Nat) (p : Nat) : Option Int :=
  match reduceFold t.nums state with
  | none => none
  | some h =>
    match t.toPlay with
    | none => some h
    | some tp => some (jsXor h ((tp.getD p 0 : Nat) : Int))

/-- Errors observable from `add`: the TypeError of reducing an empty state,
and the `Error` thrown when the fingerprint is already registered. -/
inductive KoErr where
  | emptyState : KoErr
  | duplicate : Int → KoErr
deriving DecidableEq

/-- The source's `add(state, toPlay)`: hash the state, throw if the
fingerprint is already in `this.keys` (leaving the registry untouched),
otherwise insert it and return it.  The second component is the registry
state after the call. -/
def KoHash.add (t : KoHash) (state : List Nat) (p : Nat) :
    Except KoErr Int × KoHash :=
  match t.hash state p with
  | none => (Except.error KoErr.emptyState, t)
  | some h =>
    if h ∈ t.keys then (Except.error (KoErr.duplicate h), t)
    else (Except.ok h, { t with keys := h :: t.keys })

/-- The source's `remove(key)`: `this.keys.delete(key)` returns whether the
key was present and removes it if so. -/
def KoHash.remove (t : KoHash) (k : Int) : Bool × KoHash :=
  (decide (k ∈ t.keys), { t with keys := t.keys.erase k })

/-- Modelled from the spec: the fold described in section 4.3 — `fingerprint
= XOR over v in [0, size) of KeyTable[v][state[v]]`, seeded with the identity
key 0, combined with full-width unsigned XOR, and further XORed with
`ToPlayTable[to_play]` when that table is present.  Stated for comparison
with the source's `KoHash.hash`. -/
def specHash (t : KoHash) (state : List Nat) (p : Nat) : Nat :=
  let f := state.enum.foldl
    (fun acc vi => acc ^^^ ((t.nums.getD vi.1 []).getD vi.2 0)) 0
  match t.toPlay with
  | none => f
  | some tp => f ^^^ tp.getD p 0

/-- The 32-bit pattern that the value `x` at vertex `v` contributes to the
fold: for `v = 0` the raw value itself (the unseeded reduce starts from
`state[0]`), for `v ≥ 1` the key stored at `nums[v][x]`. -/
def contribU32 (t : KoHash) (v x : Nat) : Nat :=
  if v = 0 then x % 4294967296 else ((t.nums.getD v []).getD x 0) % 4294967296

/-- All generated (non-identity) keys of a table: every row entry past the
leading literal 0, from the vertex rows and the to-play row alike. -/
def generatedKeys (t : KoHash) : List Nat :=
  (t.nums.map List.tail).flatten ++
    (match t.toPlay with | none => [] | some tp => tp.tail)

/-
Arithmetic facts about the 32-bit pattern map and the JavaScript XOR.
-/

lemma u32_lt (a : Int) : u32 a < 4294967296 := by
  unfold u32; omega

lemma u32_coe (n : Nat) : u32 ((n : Nat) : Int) = n % 4294967296 := by
  unfold u32; omega

lemma xor_u32_lt (a b : Int) : u32 a ^^^ u32 b < 4294967296 := by
  have e : (4294967296 : Nat) = 2 ^ 32 := by norm_num
  have h1 : u32 a < 2 ^ 32 := by rw [← e]; exact u32_lt a
  have h2 : u32 b < 2 ^ 32 := by rw [← e]; exact u32_lt b
  rw [e]
  exact Nat.xor_lt_two_pow h1 h2

lemma u32_jsXor (a b : Int) : u32 (jsXor a b) = u32 a ^^^ u32 b := by
  have hr := xor_u32_lt a b
  unfold jsXor
  by_cases h : u32 a ^^^ u32 b < 2147483648
  · rw [if_pos h]
    unfold u32 at hr h ⊢
    omega
  · rw [if_neg h]
    unfold u32 at hr h ⊢
    omega

lemma jsXor_eq_iff (a a' b : Int) : jsXor a b = jsXor a' b ↔ u32 a = u32 a' := by
  constructor
  · intro h
    have h2 : u32 (jsXor a b) = u32 (jsXor a' b) := by rw [h]
    rw [u32_jsXor, u32_jsXor] at h2
    exact Nat.xor_left_injective h2
  · intro h
    unfold jsXor
    rw [h]

lemma ne_of_u32_ne {a b : Int} (h : u32 a ≠ u32 b) : a ≠ b := by
  intro he; exact h (by rw [he])

/-
Step equations for the unseeded reduce fold.
-/

lemma foldFrom_nil (nums : List (List Nat)) (acc : Int) (i : Nat) :
    foldFrom nums acc i [] = some acc := rfl

lemma foldFrom_cons_none (nums : List (List Nat)) (acc : Int) (i v : Nat)
    (rest : List Nat) (hrow : nums[i]? = none) :
    foldFrom nums acc i (v :: rest) = none := by
  have e : foldFrom nums acc i (v :: rest) =
      match nums[i]? with
      | none => none
      | some row => foldFrom nums (jsXor acc ((row.getD v 0 : Nat) : Int)) (i + 1) rest := rfl
  rw [e, hrow]

lemma foldFrom_cons_some (nums : List (List Nat)) (acc : Int) (i v : Nat)
    (rest row : List Nat) (hrow : nums[i]? = some row) :
    foldFrom nums acc i (v :: rest) =
      foldFrom nums (jsXor acc ((row.getD v 0 : Nat) : Int)) (i + 1) rest := by
  have e : foldFrom nums acc i (v :: rest) =
      match nums[i]? with
      | none => none
      | some r => foldFrom nums (jsXor acc ((r.getD v 0 : Nat) : Int)) (i + 1) rest := rfl
  rw [e, hrow]

lemma foldFrom_append_some (nums : List (List Nat)) (xs : List Nat) :
    ∀ acc i r ys, foldFrom nums acc i xs = some r →
      foldFrom nums acc i (xs ++ ys) = foldFrom nums r (i + xs.length) ys := by
  induction xs with
  | nil =>
    intro acc i r ys h
    rw [foldFrom_nil] at h
    cases h
    simp
  | cons v rest ih =>
    intro acc i r ys h
    cases hrow : nums[i]? with
    | none => rw [foldFrom_cons_none nums acc i v rest hrow] at h; exact absurd h (by simp)
    | some row =>
      rw [foldFrom_cons_some nums acc i v rest row hrow] at h
      rw [List.cons_append, foldFrom_cons_some nums acc i v (rest ++ ys) row hrow,
        ih _ _ _ _ h]
      have hi : i + 1 + rest.length = i + (v :: rest).length := by
        simp [List.length_cons]; omega
      rw [hi]

lemma foldFrom_isSome (nums : List (List Nat)) :
    ∀ (vals : List Nat) (acc : Int) (i : Nat), i + vals.length ≤ nums.length →
      ∃ r, foldFrom nums acc i vals = some r := by
  intro vals
  induction vals with
  | nil => intro acc i _; exact ⟨acc, rfl⟩
  | cons v rest ih =>
    intro acc i hle
    have hi : i < nums.length := by simp [List.length_cons] at hle; omega
    have hrow : nums[i]? = some nums[i] := List.getElem?_eq_getElem hi
    rw [foldFrom_cons_some nums acc i v rest nums[i] hrow]
    exact ih _ (i + 1) (by simp [List.length_cons] at hle ⊢; omega)

lemma foldFrom_u32_ne (nums : List (List Nat)) :
    ∀ (vals : List Nat) (acc acc' : Int) (i : Nat) (r r' : Int),
      u32 acc ≠ u32 acc' →
      foldFrom nums acc i vals = some r → foldFrom nums acc' i vals = some r' →
      u32 r ≠ u32 r' := by
  intro vals
  induction vals with
  | nil =>
    intro acc acc' i r r' hne h h'
    rw [foldFrom_nil] at h h'
    cases h; cases h'
    exact hne
  | cons v rest ih =>
    intro acc acc' i r r' hne h h'
    cases hrow : nums[i]? with
    | none => rw [foldFrom_cons_none nums acc i v rest hrow] at h; exact absurd h (by simp)
    | some row =>
      rw [foldFrom_cons_some nums acc i v rest row hrow] at h
      rw [foldFrom_cons_some nums acc' i v rest row hrow] at h'
      refine ih _ _ (i + 1) _ _ ?_ h h'
      rw [u32_jsXor, u32_jsXor]
      intro hx
      exact hne (Nat.xor_left_injective hx)

/-
Step equations for the hash and the full reduce.
-/

lemma reduceFold_cons (nums : List (List Nat)) (s0 : Nat) (rest : List Nat) :
    reduceFold nums (s0 :: rest) = foldFrom nums ((s0 : Nat) : Int) 1 rest := rfl

lemma hash_eq_none (t : KoHash) (s : List Nat) (p : Nat)
    (h : reduceFold t.nums s = none) : t.hash s p = none := by
  have e : t.hash s p =
      (match reduceFold t.nums s with
       | none => none
       | some h =>
         match t.toPlay with
         | none => some h
         | some tp => some (jsXor h ((tp.getD p 0 : Nat) : Int))) := rfl
  rw [e, h]

lemma hash_some_of_toPlay_none (t : KoHash) (s : List Nat) (p : Nat) (r : Int)
    (hr : reduceFold t.nums s = some r) (htp : t.toPlay = none) :
    t.hash s p = some r := by
  have e : t.hash s p =
      (match reduceFold t.nums s with
       | none => none
       | some h =>
         match t.toPlay with
         | none => some h
         | some tp => some (jsXor h ((tp.getD p 0 : Nat) : Int))) := rfl
  rw [e, hr, htp]

lemma hash_some_of_toPlay_some (t : KoHash) (s : List Nat) (p : Nat) (r : Int)
    (tp : List Nat) (hr : reduceFold t.nums s = some r) (htp : t.toPlay = some tp) :
    t.hash s p = some (jsXor r ((tp.getD p 0 : Nat) : Int)) := by
  have e : t.hash s p =
      (match reduceFold t.nums s with
       | none => none
       | some h =>
         match t.toPlay with
         | none => some h
         | some tp => some (jsXor h ((tp.getD p 0 : Nat) : Int))) := rfl
  rw [e, hr, htp]

lemma hash_ne_of_u32_ne (t : KoHash) (s s' : List Nat) (p : Nat) (r r' : Int)
    (hr : reduceFold t.nums s = some r) (hr' : reduceFold t.nums s' = some r')
    (hu : u32 r ≠ u32 r') : t.hash s p ≠ t.hash s' p := by
  cases htp : t.toPlay with
  | none =>
    rw [hash_some_of_toPlay_none t s p r hr htp,
      hash_some_of_toPlay_none t s' p r' hr' htp]
    intro heq
    exact ne_of_u32_ne hu (Option.some.inj heq)
  | some tp =>
    rw [hash_some_of_toPlay_some t s p r tp hr htp,
      hash_some_of_toPlay_some t s' p r' tp hr' htp]
    intro heq
    exact hu ((jsXor_eq_iff r r' _).mp (Option.some.inj heq))

lemma reduceFold_pair_ne (nums : List (List Nat)) (pre suf : List Nat) (a b : Nat)
    (hlen : (pre ++ a :: suf).length ≤ nums.length)
    (hc : (if pre.length = 0 then a % 4294967296
           else (nums.getD pre.length []).getD a 0 % 4294967296) ≠
          (if pre.length = 0 then b % 4294967296
           else (nums.getD pre.length []).getD b 0 % 4294967296)) :
    ∃ r r', reduceFold nums (pre ++ a :: suf) = some r ∧
      reduceFold nums (pre ++ b :: suf) = some r' ∧ u32 r ≠ u32 r' := by
  cases pre with
  | nil =>
    simp only [List.length_nil, if_pos rfl] at hc
    simp only [List.nil_append, reduceFold_cons]
    have hlen' : 1 + suf.length ≤ nums.length := by
      simp [List.length_cons] at hlen; omega
    obtain ⟨r, hr⟩ := foldFrom_isSome nums suf ((a : Nat) : Int) 1 hlen'
    obtain ⟨r', hr'⟩ := foldFrom_isSome nums suf ((b : Nat) : Int) 1 hlen'
    refine ⟨r, r', hr, hr', ?_⟩
    refine foldFrom_u32_ne nums suf _ _ 1 r r' ?_ hr hr'
    rw [u32_coe, u32_coe]
    exact hc
  | cons p0 pre' =>
    have hne0 : (p0 :: pre').length ≠ 0 := by simp
    rw [if_neg hne0, if_neg hne0] at hc
    simp only [List.cons_append, reduceFold_cons]
    have hlen1 : 1 + pre'.length ≤ nums.length := by
      simp [List.length_cons, List.length_append] at hlen; omega
    obtain ⟨A, hA⟩ := foldFrom_isSome nums pre' ((p0 : Nat) : Int) 1 hlen1
    rw [foldFrom_append_some nums pre' _ 1 A (a :: suf) hA,
      foldFrom_append_some nums pre' _ 1 A (b :: suf) hA]
    have hvlt : 1 + pre'.length < nums.length := by
      simp [List.length_cons, List.length_append] at hlen; omega
    have hrow : nums[1 + pre'.length]? = some nums[1 + pre'.length] :=
      List.getElem?_eq_getElem hvlt
    rw [foldFrom_cons_some nums A (1 + pre'.length) a suf _ hrow,
      foldFrom_cons_some nums A (1 + pre'.length) b suf _ hrow]
    have hlen2 : (1 + pre'.length + 1) + suf.length ≤ nums.length := by
      simp [List.length_cons, List.length_append] at hlen; omega
    obtain ⟨r, hr⟩ := foldFrom_isSome nums suf
      (jsXor A ((nums[1 + pre'.length].getD a 0 : Nat) : Int)) _ hlen2
    obtain ⟨r', hr'⟩ := foldFrom_isSome nums suf
      (jsXor A ((nums[1 + pre'.length].getD b 0 : Nat) : Int)) _ hlen2
    refine ⟨r, r', hr, hr', ?_⟩
    refine foldFrom_u32_ne nums suf _ _ _ r r' ?_ hr hr'
    rw [u32_jsXor, u32_jsXor]
    intro hx
    have hk := Nat.xor_right_injective hx
    rw [u32_coe, u32_coe] at hk
    have hgd : nums.getD ((p0 :: pre').length) [] = nums[1 + pre'.length] := by
      have hlc : (p0 :: pre').length = 1 + pre'.length := by
        simp [List.length_cons]; omega
      rw [hlc, List.getD_eq_getElem?_getD, hrow]
      rfl
    rw [hgd] at hc
    exact hc hk

/-
Invariants of the uniqueness-checked key generation.
-/

lemma genKey_not_mem (numbers : List Nat) :
    ∀ stream k rest, genKey numbers stream = some (k, rest) → k ∉ numbers := by
  intro stream
  induction stream with
  | nil => intro k rest h; exact absurd h (by simp [genKey])
  | cons d s ih =>
    intro k rest h
    unfold genKey at h
    by_cases hd : d ∈ numbers
    · rw [if_pos hd] at h
      exact ih _ _ h
    · rw [if_neg hd] at h
      cases h
      exact hd

lemma genKey_accepts (numbers : List Nat) (d : Nat) (rest : List Nat)
    (hd : d ∉ numbers) : genKey numbers (d :: rest) = some (d, rest) := by
  unfold genKey
  rw [if_neg hd]

lemma genKeys_spec :
    ∀ (q : Nat) (numbers stream ks ns s : List Nat),
      genKeys numbers q stream = some (ks, ns, s) →
      ks.Nodup ∧ (∀ x ∈ ks, x ∉ numbers) ∧
        (∀ x, x ∈ ns ↔ x ∈ ks ∨ x ∈ numbers) := by
  intro q
  induction q with
  | zero =>
    intro numbers stream ks ns s h
    unfold genKeys at h
    cases h
    exact ⟨List.nodup_nil, by simp, by simp⟩
  | succ q ih =>
    intro numbers stream ks ns s h
    unfold genKeys at h
    split at h
    · exact absurd h (by simp)
    · rename_i k s1 hk
      split at h
      · exact absurd h (by simp)
      · rename_i ks' ns' s2 hks
        cases h
        have hkmem := genKey_not_mem numbers stream k s1 hk
        obtain ⟨hnd, hfresh, hmem⟩ := ih _ _ _ _ _ hks
        refine ⟨?_, ?_, ?_⟩
        · rw [List.nodup_cons]
          refine ⟨fun hk' => ?_, hnd⟩
          exact (hfresh k hk') (List.mem_cons_self k numbers)
        · intro x hx
          rcases List.mem_cons.mp hx with hxk | hxks
          · rw [hxk]; exact hkmem
          · intro hxn
            exact (hfresh x hxks) (List.mem_cons_of_mem k hxn)
        · intro x
          rw [hmem x]
          simp only [List.mem_cons]
          tauto

lemma initNumbers_spec (numbers : List Nat) (quantity : Nat) (stream : List Nat)
    (row ns s : List Nat) (h : initNumbers numbers quantity stream = some (row, ns, s)) :
    ∃ ks, row = 0 :: ks ∧ ks.Nodup ∧ (∀ x ∈ ks, x ∉ numbers) ∧
      (∀ x, x ∈ ns ↔ x ∈ ks ∨ x ∈ numbers) := by
  unfold initNumbers at h
  split at h
  · exact absurd h (by simp)
  · rename_i ks ns' s' hks
    cases h
    exact ⟨ks, rfl, genKeys_spec _ _ _ _ _ _ hks⟩

lemma buildRows_spec :
    ∀ (size : Nat) (numbers : List Nat) (values : Nat) (stream : List Nat)
      (rows : List (List Nat)) (ns s : List Nat),
      buildRows numbers size values stream = some (rows, ns, s) →
      (∀ row ∈ rows, row.head? = some 0) ∧
        ((rows.map List.tail).flatten.Nodup) ∧
        (∀ x ∈ (rows.map List.tail).flatten, x ∉ numbers) ∧
        (∀ x, x ∈ ns ↔ x ∈ (rows.map List.tail).flatten ∨ x ∈ numbers) := by
  intro size
  induction size with
  | zero =>
    intro numbers values stream rows ns s h
    unfold buildRows at h
    cases h
    exact ⟨by simp, by simp, by simp, by simp⟩
  | succ size ih =>
    intro numbers values stream rows ns s h
    unfold buildRows at h
    split at h
    · exact absurd h (by simp)
    · rename_i row ns1 s1 hrow
      split at h
      · exact absurd h (by simp)
      · rename_i rows' ns2 s2 hrows
        cases h
        obtain ⟨ks, hks0, hnd0, hfresh0, hmem0⟩ :=
          initNumbers_spec numbers values stream row ns1 s1 hrow
        obtain ⟨hheads, hnd, hfresh, hmem⟩ := ih _ _ _ _ _ _ hrows
        have htail : (((row :: rows').map List.tail).flatten) =
            ks ++ (rows'.map List.tail).flatten := by
          rw [hks0]; simp
        refine ⟨?_, ?_, ?_, ?_⟩
        · intro r hr
          rcases List.mem_cons.mp hr with hr0 | hr'
          · rw [hr0, hks0]; rfl
          · exact hheads r hr'
        · rw [htail, List.nodup_append]
          refine ⟨hnd0, hnd, ?_⟩
          intro x hx hx'
          have : x ∈ ns1 := (hmem0 x).mpr (Or.inl hx)
          exact (hfresh x hx') this
        · rw [htail]
          intro x hx
          rcases List.mem_append.mp hx with hx0 | hx'
          · exact hfresh0 x hx0
          · intro hxn
            exact (hfresh x hx') ((hmem0 x).mpr (Or.inr hxn))
        · rw [htail]
          intro x
          rw [hmem x]
          rw [List.mem_append]
          rw [hmem0 x]
          tauto

lemma jsXor_right_eq_iff (a b b' : Int) : jsXor a b = jsXor a b' ↔ u32 b = u32 b' := by
  constructor
  · intro h
    have h2 : u32 (jsXor a b) = u32 (jsXor a b') := by rw [h]
    rw [u32_jsXor, u32_jsXor] at h2
    exact Nat.xor_right_injective h2
  · intro h
    unfold jsXor
    rw [h]

/-
Claim theorems.
-/

/-- C1: the spec's algorithm XORs `KeyTable[v][state[v]]` over every vertex
`v` in `[0, size)`.  The source calls `state.reduce` without an initial
accumulator, so the fold starts from the raw value `state[0]` and never reads
`nums[0]`: on the table built from the single draw 5 (key matrix `[[0, 5]]`),
the state `[1]` hashes to the raw value 1, while the XOR over all vertices of
the table keys (computed by `specHash`, modelled from the spec) is the key
5.  This evaluates the code at the failing input of the C1 divergence. -/
theorem hash_ignores_vertex_zero_key :
    KoHash.construct 1 1 0 [5] = some ⟨[[0, 5]], none, []⟩ ∧
    KoHash.hash ⟨[[0, 5]], none, []⟩ [1] 0 = some 1 ∧
    specHash ⟨[[0, 5]], none, []⟩ [1] 0 = 5 ∧
    KoHash.hash ⟨[[0, 5]], none, []⟩ [1] 0 ≠
      some ((specHash ⟨[[0, 5]], none, []⟩ [1] 0 : Nat) : Int) := by
  exact ⟨by decide, by decide, by decide, by decide⟩

/-- C2 (counterexample): single-vertex sensitivity does not hold for every
constructed table.  The constructor only checks fresh draws against
previously generated keys, never against the identity key 0, so with second
draw 0 the table `[[0, 5], [0, 0]]` is built, on which the states `[0, 0]`
and `[0, 1]` — differing exactly at vertex 1, with distinct values 0 ≠ 1 in
`[0, values]` — hash identically. -/
theorem hash_single_vertex_collision :
    KoHash.construct 2 1 0 [5, 0] = some ⟨[[0, 5], [0, 0]], none, []⟩ ∧
    (0 : Nat) ≠ 1 ∧
    KoHash.hash ⟨[[0, 5], [0, 0]], none, []⟩ [0, 0] 0 =
      KoHash.hash ⟨[[0, 5], [0, 0]], none, []⟩ [0, 1] 0 := by
  exact ⟨by decide, by decide, by decide⟩

/-- C2 (amended): if two states of the right length differ exactly at vertex
`v = pre.length` — holding every other vertex fixed — and the 32-bit
patterns the two values contribute to the fold differ (for `v = 0` the raw
values themselves, for `v ≥ 1` the stored keys, each reduced mod 2^32 as the
JavaScript XOR does), then the two hashes differ, for every to-play
argument.  The proviso is forced: the constructor guarantees distinctness
neither against the identity key 0 nor modulo 2^32. -/
theorem hash_single_vertex_sensitivity (t : KoHash) (pre suf : List Nat)
    (a b : Nat) (p : Nat)
    (hlen : (pre ++ a :: suf).length = t.nums.length)
    (hc : contribU32 t pre.length a ≠ contribU32 t pre.length b) :
    t.hash (pre ++ a :: suf) p ≠ t.hash (pre ++ b :: suf) p := by
  have hle : (pre ++ a :: suf).length ≤ t.nums.length := le_of_eq hlen
  have hc' : (if pre.length = 0 then a % 4294967296
      else (t.nums.getD pre.length []).getD a 0 % 4294967296) ≠
      (if pre.length = 0 then b % 4294967296
      else (t.nums.getD pre.length []).getD b 0 % 4294967296) := by
    unfold contribU32 at hc
    exact hc
  obtain ⟨r, r', hr, hr', hu⟩ := reduceFold_pair_ne t.nums pre suf a b hle hc'
  exact hash_ne_of_u32_ne t _ _ p r r' hr hr' hu

/-- C2 witness: the amended sensitivity theorem applied to a concrete table
and a concrete single-vertex change. -/
theorem hash_single_vertex_sensitivity_witness :
    (([0] ++ 0 :: ([] : List Nat)).length =
      (⟨[[0, 5], [0, 9]], none, []⟩ : KoHash).nums.length) ∧
    contribU32 ⟨[[0, 5], [0, 9]], none, []⟩ ([0] : List Nat).length 0 ≠
      contribU32 ⟨[[0, 5], [0, 9]], none, []⟩ ([0] : List Nat).length 1 ∧
    KoHash.hash ⟨[[0, 5], [0, 9]], none, []⟩ ([0] ++ 0 :: []) 0 ≠
      KoHash.hash ⟨[[0, 5], [0, 9]], none, []⟩ ([0] ++ 1 :: []) 0 := by
  refine ⟨by decide, by decide, ?_⟩
  exact hash_single_vertex_sensitivity ⟨[[0, 5], [0, 9]], none, []⟩ [0] [] 0 1 0
    (by decide) (by decide)

/-- C3: once `add(state, toPlay)` has succeeded returning fingerprint `fp`
and registry state `t'`, a second `add` with the same arguments throws the
duplicate-fingerprint error and leaves the registry unchanged; after
`remove(fp)` reports `true`, the same `add` succeeds again, returning the
same fingerprint and registry. -/
theorem registry_exclusivity (t t' : KoHash) (s : List Nat) (p : Nat) (fp : Int)
    (hadd : t.add s p = (Except.ok fp, t')) :
    t'.add s p = (Except.error (KoErr.duplicate fp), t') ∧
    (t'.remove fp).1 = true ∧
    ((t'.remove fp).2).add s p = (Except.ok fp, t') := by
  have e : t.add s p =
      (match t.hash s p with
       | none => (Except.error KoErr.emptyState, t)
       | some h =>
         if h ∈ t.keys then (Except.error (KoErr.duplicate h), t)
         else (Except.ok h, { t with keys := h :: t.keys })) := rfl
  rw [e] at hadd
  cases hh : t.hash s p with
  | none => rw [hh] at hadd; exact absurd hadd (by simp)
  | some h0 =>
    rw [hh] at hadd
    have hadd2 : (if h0 ∈ t.keys
        then ((Except.error (KoErr.duplicate h0) : Except KoErr Int), t)
        else ((Except.ok h0 : Except KoErr Int), { t with keys := h0 :: t.keys })) =
        (Except.ok fp, t') := hadd
    clear hadd
    by_cases hmem : h0 ∈ t.keys
    · rw [if_pos hmem] at hadd2
      exact absurd hadd2 (by simp)
    · rw [if_neg hmem] at hadd2
      rename' hadd2 => hadd
      have h1 : (Except.ok h0 : Except KoErr Int) = Except.ok fp :=
        congrArg Prod.fst hadd
      have h2 : ({ t with keys := h0 :: t.keys } : KoHash) = t' :=
        congrArg Prod.snd hadd
      have hfp : h0 = fp := by cases h1; rfl
      subst hfp
      subst h2
      have hh' : KoHash.hash { t with keys := h0 :: t.keys } s p = some h0 := hh
      refine ⟨?_, ?_, ?_⟩
      · have e2 : KoHash.add { t with keys := h0 :: t.keys } s p =
            (match KoHash.hash { t with keys := h0 :: t.keys } s p with
             | none => (Except.error KoErr.emptyState, { t with keys := h0 :: t.keys })
             | some h =>
               if h ∈ h0 :: t.keys then
                 (Except.error (KoErr.duplicate h), { t with keys := h0 :: t.keys })
               else (Except.ok h, { t with keys := h :: h0 :: t.keys })) := rfl
        rw [e2, hh']
        show (if h0 ∈ h0 :: t.keys
            then ((Except.error (KoErr.duplicate h0) : Except KoErr Int),
              ({ t with keys := h0 :: t.keys } : KoHash))
            else ((Except.ok h0 : Except KoErr Int),
              ({ t with keys := h0 :: h0 :: t.keys } : KoHash))) =
          (Except.error (KoErr.duplicate h0), { t with keys := h0 :: t.keys })
        rw [if_pos (List.mem_cons_self h0 t.keys)]
      · unfold KoHash.remove
        simp
      · have e3 : (KoHash.remove { t with keys := h0 :: t.keys } h0).2 =
            { t with keys := (h0 :: t.keys).erase h0 } := rfl
        have herase : (h0 :: t.keys).erase h0 = t.keys := List.erase_cons_head h0 t.keys
        have e4 : ({ t with keys := t.keys } : KoHash) = t := rfl
        rw [e3, herase, e4, e, hh]
        show (if h0 ∈ t.keys
            then ((Except.error (KoErr.duplicate h0) : Except KoErr Int), t)
            else ((Except.ok h0 : Except KoErr Int),
              ({ t with keys := h0 :: t.keys } : KoHash))) =
          (Except.ok h0, { t with keys := h0 :: t.keys })
        rw [if_neg hmem]

/-- C3 witness: the registry round trip applied to a concrete table and
state. -/
theorem registry_exclusivity_witness :
    KoHash.add ⟨[[0, 5]], none, [1]⟩ [1] 0 =
      (Except.error (KoErr.duplicate 1), ⟨[[0, 5]], none, [1]⟩) ∧
    (KoHash.remove ⟨[[0, 5]], none, [1]⟩ 1).1 = true ∧
    (KoHash.remove ⟨[[0, 5]], none, [1]⟩ 1).2.add [1] 0 =
      (Except.ok 1, ⟨[[0, 5]], none, [1]⟩) :=
  registry_exclusivity ⟨[[0, 5]], none, []⟩ ⟨[[0, 5]], none, [1]⟩ [1] 0 1 (by rfl)

/-- C4: the claim says hashing is well-defined on a zero-length state and
returns 0.  The source's `state.reduce` has no initial accumulator, so it
throws on an empty array (modelled as `none`), while the spec's seeded fold
(`specHash`) yields 0 there; a nonempty all-zero state does hash to 0.  This
evaluates the code at the failing input (the empty state). -/
theorem hash_empty_state_fails :
    KoHash.hash ⟨[[0, 5]], none, []⟩ [] 0 = none ∧
    specHash ⟨[[0, 5]], none, []⟩ [] 0 = 0 ∧
    KoHash.hash ⟨[[0, 5]], none, []⟩ [0] 0 = some 0 ∧
    KoHash.hash ⟨[[0, 5], [0, 7]], none, []⟩ [0, 0] 0 = some 0 := by
  exact ⟨by decide, by decide, by decide, by decide⟩

/-- C5: for every successfully constructed table, the generated
(non-identity) keys — every row entry past index 0, across all vertex rows
and the to-play row when present — are pairwise distinct, and index 0 of
every row (vertex rows and to-play row) holds the identity key 0. -/
theorem keytable_uniqueness (size values situational : Nat) (stream : List Nat)
    (t : KoHash) (h : KoHash.construct size values situational stream = some t) :
    (generatedKeys t).Nodup ∧
    (∀ row ∈ t.nums, row.head? = some 0) ∧
    (∀ tp, t.toPlay = some tp → tp.head? = some 0) := by
  unfold KoHash.construct at h
  split at h
  · exact absurd h (by simp)
  · rename_i rows ns s1 hbr
    obtain ⟨hheads, hnd, hfresh, hmem⟩ :=
      buildRows_spec size [] values stream rows ns s1 hbr
    by_cases hsit : situational = 0
    · rw [if_pos hsit] at h
      cases h
      refine ⟨?_, hheads, ?_⟩
      · have e : generatedKeys ⟨rows, none, []⟩ =
            (rows.map List.tail).flatten ++ [] := rfl
        rw [e, List.append_nil]
        exact hnd
      · intro tp htp
        exact absurd htp (by simp)
    · rw [if_neg hsit] at h
      split at h
      · exact absurd h (by simp)
      · rename_i tp ns2 s2 hinit
        cases h
        obtain ⟨ks, hks0, hndtp, hfreshtp, _⟩ :=
          initNumbers_spec ns situational s1 tp ns2 s2 hinit
        refine ⟨?_, hheads, ?_⟩
        · have e : generatedKeys ⟨rows, some tp, []⟩ =
              (rows.map List.tail).flatten ++ tp.tail := rfl
          rw [e, hks0]
          have etail : (0 :: ks : List Nat).tail = ks := rfl
          rw [etail, List.nodup_append]
          refine ⟨hnd, hndtp, ?_⟩
          intro x hx hx'
          exact (hfreshtp x hx') ((hmem x).mpr (Or.inl hx))
        · intro tp' htp'
          cases htp'
          rw [hks0]
          rfl

/-- C5 witness: uniqueness and identity heads on a concrete constructed
table with a to-play row. -/
theorem keytable_uniqueness_witness :
    (generatedKeys ⟨[[0, 1, 2], [0, 3, 4]], some [0, 5], []⟩).Nodup ∧
    (∀ row ∈ (⟨[[0, 1, 2], [0, 3, 4]], some [0, 5], []⟩ : KoHash).nums,
      row.head? = some 0) ∧
    (∀ tp, (⟨[[0, 1, 2], [0, 3, 4]], some [0, 5], []⟩ : KoHash).toPlay = some tp →
      tp.head? = some 0) :=
  keytable_uniqueness 2 2 1 [1, 2, 3, 4, 5]
    ⟨[[0, 1, 2], [0, 3, 4]], some [0, 5], []⟩ (by decide)

/-- C6: the claim says the fold is a full-width unsigned XOR, so keys
differing only above bit 31 yield different fingerprints.  JavaScript `^` on
numbers coerces both operands to 32-bit signed integers, so on the
constructed table whose vertex-1 keys are 5 and 5 + 2^32 (distinct, equal
mod 2^32), the states `[0, 1]` and `[0, 2]` hash identically: the fold
truncates every key to its low 32 bits.  This evaluates the code at the
failing input of the C6 divergence. -/
theorem hash_truncates_keys_to_32_bits :
    KoHash.construct 2 2 0 [1, 2, 5, 4294967301] =
      some ⟨[[0, 1, 2], [0, 5, 4294967301]], none, []⟩ ∧
    (5 : Nat) ≠ 4294967301 ∧
    (5 : Nat) % 4294967296 = 4294967301 % 4294967296 ∧
    KoHash.hash ⟨[[0, 1, 2], [0, 5, 4294967301]], none, []⟩ [0, 1] 0 =
      KoHash.hash ⟨[[0, 1, 2], [0, 5, 4294967301]], none, []⟩ [0, 2] 0 := by
  exact ⟨by decide, by decide, by decide, by decide⟩

/-- C7 (counterexample): with `situational > 0` the claim says `hash(s, 1)`
always differs from `hash(s, 0)`.  Because generated keys are never checked
against the identity key 0, the to-play key at index 1 can itself be 0: the
table built from draws `[5, 0]` with `situational = 1` has `toPlay =
[0, 0]`, and on it `hash([0], 1) = hash([0], 0)`. -/
theorem situational_hash_collision :
    KoHash.construct 1 1 1 [5, 0] = some ⟨[[0, 5]], some [0, 0], []⟩ ∧
    KoHash.hash ⟨[[0, 5]], some [0, 0], []⟩ [0] 1 =
      KoHash.hash ⟨[[0, 5]], some [0, 0], []⟩ [0] 0 := by
  exact ⟨by decide, by decide⟩

/-- C7 (amended): when the table has no to-play row (`situational = 0`) the
to-play argument is ignored entirely: `hash(s, p) = hash(s, p')` for all
`p, p'`.  When a to-play row is present with identity at index 0, `hash(s,
1)` differs from `hash(s, 0)` on every state whose reduce succeeds, provided
the to-play key at index 1 is nonzero modulo 2^32 — a proviso the
constructor does not guarantee, since generated keys are checked neither
against 0 nor modulo 2^32. -/
theorem situational_vs_positional :
    (∀ (t : KoHash) (s : List Nat) (p p' : Nat), t.toPlay = none →
      t.hash s p = t.hash s p') ∧
    (∀ (t : KoHash) (tp s : List Nat) (r : Int), t.toPlay = some tp →
      tp.getD 0 0 = 0 → tp.getD 1 0 % 4294967296 ≠ 0 →
      reduceFold t.nums s = some r → t.hash s 1 ≠ t.hash s 0) := by
  constructor
  · intro t s p p' htp
    cases hr : reduceFold t.nums s with
    | none => rw [hash_eq_none t s p hr, hash_eq_none t s p' hr]
    | some r =>
      rw [hash_some_of_toPlay_none t s p r hr htp,
        hash_some_of_toPlay_none t s p' r hr htp]
  · intro t tp s r htp h0 h1 hr
    rw [hash_some_of_toPlay_some t s 1 r tp hr htp,
      hash_some_of_toPlay_some t s 0 r tp hr htp]
    intro heq
    have hu : u32 ((tp.getD 1 0 : Nat) : Int) = u32 ((tp.getD 0 0 : Nat) : Int) :=
      (jsXor_right_eq_iff r _ _).mp (Option.some.inj heq)
    rw [u32_coe, u32_coe, h0] at hu
    rw [Nat.zero_mod] at hu
    exact h1 hu

/-- C7 witness: both halves of the amended claim applied at concrete
tables. -/
theorem situational_vs_positional_witness :
    KoHash.hash ⟨[[0, 5]], none, []⟩ [1] 2 = KoHash.hash ⟨[[0, 5]], none, []⟩ [1] 7 ∧
    KoHash.hash ⟨[[0, 9]], some [0, 3], []⟩ [0] 1 ≠
      KoHash.hash ⟨[[0, 9]], some [0, 3], []⟩ [0] 0 := by
  constructor
  · exact situational_vs_positional.1 ⟨[[0, 5]], none, []⟩ [1] 2 7 rfl
  · exact situational_vs_positional.2 ⟨[[0, 9]], some [0, 3], []⟩ [0, 3] [0] 0
      rfl (by decide) (by decide) (by decide)

/-- C8: the claim says construction with `size ≤ 0` or `values < 1` fails
with a ConfigurationError.  The constructor performs no validation: with
`size = 0` it returns a table with an empty key matrix, and with `values =
0` a table whose single row holds only the identity key — both with an
empty registry, consuming no random draws.  This evaluates the code at the
failing inputs of the C8 divergence. -/
theorem construct_skips_validation :
    KoHash.construct 0 1 0 [] = some ⟨[], none, []⟩ ∧
    KoHash.construct 1 0 0 [] = some ⟨[[0]], none, []⟩ := by
  exact ⟨by decide, by decide⟩

/-- C9: the claim says each key draw retries at most a bounded number of
times and then fails with KeySpaceExhaustion.  The source's `do/while` loop
has no retry budget and no such error: for every `n`, after `n` consecutive
colliding draws the generator has neither produced a key nor reported an
error — it is still retrying — and the same holds for the `initNumbers`
loop around it.  This evaluates the code on the failing input (a draw
sequence that always collides with the already-used key 5). -/
theorem genKey_unbounded_retry :
    (∀ n : Nat, genKey [5] (List.replicate n 5) = none) ∧
    (∀ n : Nat, initNumbers [5] 1 (List.replicate n 5) = none) := by
  have hg : ∀ n : Nat, genKey [5] (List.replicate n 5) = none := by
    intro n
    induction n with
    | zero => rfl
    | succ n ih =>
      rw [List.replicate_succ]
      unfold genKey
      rw [if_pos (List.mem_singleton.mpr rfl)]
      exact ih
  refine ⟨hg, ?_⟩
  intro n
  unfold initNumbers genKeys
  rw [hg n]

/-- C10: uniqueness of generated keys is enforced only against the
exclusion set of previously generated keys, which never receives the
identity key 0: every accepted draw is merely outside that set, a draw of 0
is accepted whenever 0 has not been generated before, and the table built
from draws `[5, 0]` really stores the generated key 0 at vertex 1, value 1 —
colliding with every identity entry. -/
theorem identity_key_never_excluded :
    (∀ (numbers stream : List Nat) (k : Nat) (rest : List Nat),
      genKey numbers stream = some (k, rest) → k ∉ numbers) ∧
    (∀ (numbers rest : List Nat), (0 : Nat) ∉ numbers →
      genKey numbers (0 :: rest) = some (0, rest)) ∧
    KoHash.construct 2 1 0 [5, 0] = some ⟨[[0, 5], [0, 0]], none, []⟩ := by
  refine ⟨?_, ?_, by decide⟩
  · intro numbers stream k rest h
    exact genKey_not_mem numbers stream k rest h
  · intro numbers rest h0
    exact genKey_accepts numbers 0 rest h0

/-- C10 witness: the generation facts applied at concrete inputs. -/
theorem identity_key_never_excluded_witness :
    ((7 : Nat) ∉ [3]) ∧ genKey [3] [0] = some (0, []) := by
  constructor
  · exact identity_key_never_excluded.1 [3] [7] 7 [] (by decide)
  · exact identity_key_never_excluded.2.1 [3] [] (by decide)
